import Mathlib

/-!
Verification development for the catscii service (src/src/main.rs) and its
Geo-Analytics Engine (the `locat` crate API it consumes: `Locat::new`,
`Locat::ip_to_iso_code`, `Locat::get_analytics`).

The HTTP handlers `root_get`, `analytics_get`, `get_client_addr` and the
startup sequence of `main` are embedded directly from src/src/main.rs.
The `locat` crate itself is not part of this repository's sources, so its
operations (Range Index lookup, Aggregate Store increment/snapshot,
`ip_to_iso_code`) are modelled from the spec, as marked on each definition.
-/

namespace Catscii

/-- ISO-3166-1 alpha-2 country identifier. -/
abbrev CountryCode := String

/-- An IP address, tagged by address family (spec keeps the two families
separate in the Range Index; the numeric payload is the address value). -/
inductive IpAddr where
  | v4 (n : Nat)
  | v6 (n : Nat)
deriving DecidableEq, Repr

/-- Modelled from the spec (§3 Data model): one geographic range,
`start_ip`/`end_ip` inclusive, mapped to a country code. -/
structure GeoRange where
  start_ip : Nat
  end_ip : Nat
  country_code : CountryCode
deriving DecidableEq, Repr

/-- An address `ip` is covered by range `r` (inclusive at both ends, §4.1). -/
def GeoRange.covers (r : GeoRange) (ip : Nat) : Prop :=
  r.start_ip ≤ ip ∧ ip ≤ r.end_ip

instance (r : GeoRange) (ip : Nat) : Decidable (r.covers ip) := by
  unfold GeoRange.covers; infer_instance

/-- Modelled from the spec (§4.1 Lookup): among a list of ranges sorted by
`start_ip`, the range with the greatest `start_ip ≤ ip`, if any.  The scan
walks the sorted list and keeps the last qualifying range, which is exactly
the range the spec's binary search selects. -/
def findLast : List GeoRange → Nat → Option GeoRange
  | [], _ => none
  | r :: rs, ip =>
    if ip < r.start_ip then none
    else some ((findLast rs ip).getD r)

/-- Modelled from the spec (§4.1 Lookup): select the greatest
`start_ip ≤ ip`; return the country code if `ip ≤ end_ip` of the found
range, else `none`. -/
def lookupRanges (rs : List GeoRange) (ip : Nat) : Option CountryCode :=
  match findLast rs ip with
  | none => none
  | some r => if ip ≤ r.end_ip then some r.country_code else none

/-- Modelled from the spec (§3): one ordered range list per address family,
immutable after construction. -/
structure RangeIndex where
  v4 : List GeoRange
  v6 : List GeoRange
deriving Repr

/-- Modelled from the spec (§4.1): lookup dispatches on the address family
of `ip` and searches the matching list. -/
def RangeIndex.lookup (idx : RangeIndex) : IpAddr → Option CountryCode
  | .v4 n => lookupRanges idx.v4 n
  | .v6 n => lookupRanges idx.v6 n

/-- The ranges of the family matching `ip`. -/
def RangeIndex.familyRanges (idx : RangeIndex) : IpAddr → List GeoRange
  | .v4 _ => idx.v4
  | .v6 _ => idx.v6

/-- The numeric payload of an address. -/
def IpAddr.num : IpAddr → Nat
  | .v4 n => n
  | .v6 n => n

/-- Modelled from the spec (§4.2 Increment): the durable counter table is a
keyed association of country code to count; increment atomically creates the
row if absent (initial count 0) and adds 1. -/
def incrTable : List (CountryCode × Nat) → CountryCode → List (CountryCode × Nat)
  | [], c => [(c, 1)]
  | (k, n) :: rest, c =>
    if k = c then (k, n + 1) :: rest else (k, n) :: incrTable rest c

/-- The count recorded for a country in the table (0 when no row exists). -/
def getCount : List (CountryCode × Nat) → CountryCode → Nat
  | [], _ => 0
  | (k, n) :: rest, c => if k = c then n else getCount rest c

/-- Modelled from the spec (§5 Ordering guarantees): increments are
linearizable per key, so any execution of concurrent increments that all
complete is equivalent to applying the atomic per-key increment in some
serial order; a schedule is that serial order of keys. -/
def applySchedule (t : List (CountryCode × Nat)) (ops : List CountryCode) :
    List (CountryCode × Nat) :=
  ops.foldl incrTable t

/-- Modelled from the spec (§4.2 Open, §7): the error the durability layer
reports when it cannot commit an increment. -/
inductive StoreError where
  | commitFailed
deriving DecidableEq, Repr

/-- Modelled from the spec (§3, §4.2): the Aggregate Store behind an open
handle.  `mem` is the open handle's in-memory view of the table; `disk` is
the crash-consistent durable state, the only part that survives an unclean
process restart. -/
structure DurableStore where
  mem : List (CountryCode × Nat)
  disk : List (CountryCode × Nat)
deriving DecidableEq, Repr

/-- Modelled from the spec (§4.2 Increment, §3 durability invariant): an
increment that reports success has committed the new row durably as a single
unit of work — it is written through to `disk`, not merely buffered in
`mem`; a failed commit reports `StoreError` and leaves the store unchanged.
`commitOk` is whether the durability layer can commit this operation. -/
def DurableStore.increment (s : DurableStore) (c : CountryCode) (commitOk : Bool) :
    Except StoreError Unit × DurableStore :=
  if commitOk then (.ok (), ⟨incrTable s.mem c, incrTable s.disk c⟩)
  else (.error .commitFailed, s)

/-- Modelled from the spec (§4.2 Snapshot): a full, consistent point-in-time
read of all rows as seen through the open handle. -/
def DurableStore.snapshot (s : DurableStore) : List (CountryCode × Nat) :=
  s.mem

/-- Modelled from the spec (§8): an unclean restart, simulated by closing and
reopening the handle — the in-memory view is discarded and rebuilt from the
durable state. -/
def reopen (s : DurableStore) : DurableStore :=
  ⟨s.disk, s.disk⟩

/-- A freshly opened store whose durable table is `t`. -/
def openStore (t : List (CountryCode × Nat)) : DurableStore :=
  ⟨t, t⟩

/-- Run a sequence of increment attempts; each attempt is a key together
with whether the durability layer could commit it. -/
def runIncrements (s : DurableStore) : List (CountryCode × Bool) → DurableStore
  | [] => s
  | (c, ok) :: rest => runIncrements (s.increment c ok).2 rest

/-- The keys of the attempts that reported success. -/
def successfulKeys : List (CountryCode × Bool) → List CountryCode
  | [] => []
  | (c, ok) :: rest =>
    if ok then c :: successfulKeys rest else successfulKeys rest

/-- A log event emitted on the resolution path: `root_get`'s info line for a
resolved country, its warning when no country could be determined, and the
warning the Engine logs when a best-effort increment fails (spec §4.3). -/
inductive LogEvent where
  | infoCountry (c : CountryCode)
  | warnNoCountry
  | warnStoreError
deriving DecidableEq, Repr

/-- Outcome of the combined resolve-and-record operation: the country
returned to the caller, the store after the best-effort increment, and the
log events emitted. -/
structure ResolveResult where
  country : Option CountryCode
  store : DurableStore
  logs : List LogEvent
deriving DecidableEq, Repr

/-- Modelled from the spec (§4.3 resolve_and_record, the `Locat::ip_to_iso_code`
operation, whose source is not in this repository): calls Range Index lookup;
if it yields a country, calls Aggregate Store increment for that country —
a store failure is logged, not propagated, and does not change the returned
country; returns the lookup result regardless of whether the increment
succeeded. -/
def ipToIsoCode (idx : RangeIndex) (s : DurableStore) (ip : IpAddr)
    (commitOk : Bool) : ResolveResult :=
  match idx.lookup ip with
  | some c =>
    match s.increment c commitOk with
    | (.ok _, s2) => ⟨some c, s2, []⟩
    | (.error _, s2) => ⟨some c, s2, [.warnStoreError]⟩
  | none => ⟨none, s, []⟩

/-- A header value as the http crate holds it: raw bytes whose `to_str`
interpretation can fail; the model records the successful interpretation
when there is one. -/
structure HeaderValue where
  asStr : Option String
deriving DecidableEq, Repr

/-- A request's header map: named header values, first match wins on get. -/
abbrev HeaderMap := List (String × HeaderValue)

/-- `HeaderMap::get`: the first value stored under the given name. -/
def headerGet : HeaderMap → String → Option HeaderValue
  | [], _ => none
  | (k, v) :: rest, name => if k = name then some v else headerGet rest name

/-- From src/src/main.rs `get_client_addr` (lines 92–97): read the
"fly-client-ip" header, interpret it as a string, parse it as an IP address;
any failure short-circuits to `none`.  `parseIp` models the standard
library's `str::parse::<IpAddr>`, which is outside this repository. -/
def get_client_addr (parseIp : String → Option IpAddr) (headers : HeaderMap) :
    Option IpAddr := do
  let header ← headerGet headers "fly-client-ip"
  let s ← header.asStr
  parseIp s

/-- An HTTP response as the handlers build it: either 200 OK with a content
type and body, or 500 with a body. -/
inductive HttpResponse where
  | ok (contentType : String) (body : String)
  | internalServerError (body : String)
deriving DecidableEq, Repr

/-- From src/src/main.rs `root_get_inner` (lines 125–150): serve the cat
ASCII art as HTML on success, or a 500 "Something went wrong" on failure.
`catArt` is the outcome of `get_cat_ascii_art`, an out-of-scope external
collaborator (network calls), passed in as a parameter. -/
def root_get_inner (catArt : Except String String) : HttpResponse :=
  match catArt with
  | .ok art => .ok "text/html; charset=utf-8" art
  | .error _ => .internalServerError "Something went wrong"

/-- Everything observable about one `root_get` execution: the response sent
to the user, the analytics store afterwards, the log lines, and the span
attributes. -/
structure RootGetResult where
  response : HttpResponse
  store : DurableStore
  logs : List LogEvent
  spanAttrs : List (String × String)
deriving DecidableEq, Repr

/-- From src/src/main.rs `root_get` (lines 99–123): set the user_agent span
attribute; if a client address is found, resolve it through
`Locat::ip_to_iso_code` and only log / set a span attribute with the result;
then answer with `root_get_inner` regardless. -/
def root_get (parseIp : String → Option IpAddr) (headers : HeaderMap)
    (idx : RangeIndex) (s : DurableStore) (commitOk : Bool)
    (catArt : Except String String) : RootGetResult :=
  let userAgentAttr : String × String :=
    ("user_agent", ((headerGet headers "user-agent").bind HeaderValue.asStr).getD "")
  match get_client_addr parseIp headers with
  | some addr =>
    let r := ipToIsoCode idx s addr commitOk
    match r.country with
    | some country =>
      ⟨root_get_inner catArt, r.store, r.logs ++ [.infoCountry country],
        [userAgentAttr, ("country", country)]⟩
    | none =>
      ⟨root_get_inner catArt, r.store, r.logs ++ [.warnNoCountry], [userAgentAttr]⟩
  | none => ⟨root_get_inner catArt, s, [], [userAgentAttr]⟩

/-- From src/src/main.rs `analytics_get` (lines 82–90): the response string
is built by one `writeln!` per (country, count) pair, in the order the
snapshot returned them, each appending the country, a colon and a space, the
count, and a newline. -/
def renderAnalytics (analytics : List (CountryCode × Nat)) : String :=
  analytics.foldl (fun resp p => resp ++ (p.1 ++ ": " ++ toString p.2 ++ "\n")) ""

/-- The spec's description of the rendering (§6): plain text, one line per
country, each line the country followed by ": " and the count, in order. -/
def renderAnalyticsSpec : List (CountryCode × Nat) → String
  | [] => ""
  | p :: rest => p.1 ++ ": " ++ toString p.2 ++ "\n" ++ renderAnalyticsSpec rest

/-- From src/src/main.rs `analytics_get` (lines 82–90): unwrap the snapshot
result — a panic, modelled as `none`, when it is an error — then render the
pairs and return the string (axum serves a `String` as plain text). -/
def analytics_get (snapshot : Except StoreError (List (CountryCode × Nat))) :
    Option HttpResponse :=
  match snapshot with
  | .ok analytics =>
    some (.ok "text/plain; charset=utf-8" (renderAnalytics analytics))
  | .error _ => none

/-- The environment variables `main` reads. -/
structure Env where
  honeycombApiKey : Option String
  rustLog : Option String
  geolite2CountryDb : Option String
  analyticsDb : Option String
deriving DecidableEq, Repr

/-- Observable startup events of `main`, in program order. -/
inductive MainEvent where
  | locatNew (countryPath analyticsPath : String)
  | bindPort (addr : String)
  | serve
deriving DecidableEq, Repr

/-- Outcome of `main`'s startup sequence: a panic, with the events that
happened before it, or reaching the serve loop. -/
inductive MainOutcome where
  | panicked (events : List MainEvent)
  | serving (events : List MainEvent)
deriving DecidableEq, Repr

/-- The events an outcome performed. -/
def MainOutcome.events : MainOutcome → List MainEvent
  | .panicked es => es
  | .serving es => es

/-- From src/src/main.rs `main` (lines 30–80): install the telemetry
pipeline (`expect` panics when $HONEYCOMB_API_KEY is unset), parse the
RUST_LOG filter, defaulting to "info" (`expect` panics when it does not
parse; `rustLogParses` models the tracing filter parser), read the two
database path variables (panicking via `unwrap_or_else` when either is
unset), construct the Engine with `Locat::new` and unwrap it (`locatNewOk`
models whether the external `Locat::new` succeeds: the dataset loads and
the store opens), and only then bind 0.0.0.0:8080 and serve. -/
def runMain (env : Env) (rustLogParses : String → Bool) (locatNewOk : Bool) :
    MainOutcome :=
  match env.honeycombApiKey with
  | none => .panicked []
  | some _ =>
    if rustLogParses (env.rustLog.getD "info") then
      match env.geolite2CountryDb with
      | none => .panicked []
      | some countryPath =>
        match env.analyticsDb with
        | none => .panicked []
        | some analyticsPath =>
          if locatNewOk then
            .serving [.locatNew countryPath analyticsPath,
              .bindPort "0.0.0.0:8080", .serve]
          else
            .panicked [.locatNew countryPath analyticsPath]
    else .panicked []

end Catscii

namespace Catscii

lemma getCount_incrTable_self (t : List (CountryCode × Nat)) (c : CountryCode) :
    getCount (incrTable t c) c = getCount t c + 1 := by
  induction t with
  | nil => simp [incrTable, getCount]
  | cons p rest ih =>
    obtain ⟨k, n⟩ := p
    by_cases h : k = c
    · simp [incrTable, getCount, h]
    · simp [incrTable, getCount, h, ih]

lemma getCount_incrTable_other (t : List (CountryCode × Nat)) (c d : CountryCode)
    (hcd : d ≠ c) : getCount (incrTable t d) c = getCount t c := by
  induction t with
  | nil => simp [incrTable, getCount, hcd]
  | cons p rest ih =>
    obtain ⟨k, n⟩ := p
    by_cases h : k = d
    · subst h
      simp [incrTable, getCount, hcd]
    · by_cases h2 : k = c
      · subst h2
        simp [incrTable, getCount, h, Ne.symm hcd]
      · simp [incrTable, getCount, h, h2, ih]

lemma getCount_applySchedule (ops : List CountryCode) :
    ∀ (t : List (CountryCode × Nat)) (c : CountryCode),
      getCount (applySchedule t ops) c = getCount t c + ops.count c := by
  induction ops with
  | nil => intro t c; simp [applySchedule]
  | cons d rest ih =>
    intro t c
    have step : applySchedule t (d :: rest) = applySchedule (incrTable t d) rest := by
      simp [applySchedule]
    rw [step, ih]
    by_cases h : d = c
    · subst h
      rw [getCount_incrTable_self]
      simp [List.count_cons]
      omega
    · rw [getCount_incrTable_other t c d h]
      simp [List.count_cons, h]

lemma runIncrements_openStore (ops : List (CountryCode × Bool)) :
    ∀ t : List (CountryCode × Nat),
      runIncrements (openStore t) ops =
        openStore (applySchedule t (successfulKeys ops)) := by
  induction ops with
  | nil => intro t; simp [runIncrements, applySchedule, successfulKeys]
  | cons p rest ih =>
    intro t
    obtain ⟨c, ok⟩ := p
    cases ok with
    | true =>
      have step : applySchedule t (c :: successfulKeys rest) =
          applySchedule (incrTable t c) (successfulKeys rest) := by
        simp [applySchedule]
      simp only [runIncrements, successfulKeys, if_pos, DurableStore.increment,
        openStore, step]
      exact ih (incrTable t c)
    | false =>
      simp only [runIncrements, successfulKeys, DurableStore.increment,
        openStore, if_neg, Bool.false_eq_true, not_false_iff, ite_false]
      exact ih t

/-- C1: For every N concurrent increment operations targeting the same
country code that all complete successfully (modelled, per the spec's
per-key linearizability, as any serial schedule of atomic increments that
contains N increments of that key, interleaved with any increments of other
keys), a snapshot taken after all of them complete reports a count for that
country that is exactly N greater than its value before they started: no
concurrent increment for the same key is lost. -/
theorem concurrent_increments_no_lost_updates
    (t : List (CountryCode × Nat)) (ops : List CountryCode)
    (c : CountryCode) (N : Nat) (hN : ops.count c = N) :
    getCount (applySchedule t ops) c = getCount t c + N := by
  rw [getCount_applySchedule, hN]

/-- Witness for C1: three increments of "US" interleaved with one of "CA",
starting from a table where "US" already holds 2, end with "US" at 5. -/
theorem concurrent_increments_no_lost_updates_witness :
    (["US", "CA", "US", "US"].count "US" = 3) ∧
      getCount (applySchedule [("US", 2)] ["US", "CA", "US", "US"]) "US" =
        getCount [("US", 2)] "US" + 3 :=
  ⟨by decide,
    concurrent_increments_no_lost_updates [("US", 2)] ["US", "CA", "US", "US"]
      "US" 3 (by decide)⟩

/-- C2: For every increment operation that reports success, the updated count
is recoverable after an unclean process restart: starting from an open store
with durable table `t`, after any sequence of increment attempts, a snapshot
taken after the handle is closed and reopened equals the snapshot before the
restart, and for every country its count reflects exactly the increments that
reported success. -/
theorem committed_increments_survive_reopen
    (t : List (CountryCode × Nat)) (ops : List (CountryCode × Bool)) :
    (reopen (runIncrements (openStore t) ops)).snapshot =
        (runIncrements (openStore t) ops).snapshot ∧
      ∀ c : CountryCode,
        getCount (reopen (runIncrements (openStore t) ops)).snapshot c =
          getCount t c + (successfulKeys ops).count c := by
  rw [runIncrements_openStore]
  refine ⟨rfl, fun c => ?_⟩
  simp only [reopen, openStore, DurableStore.snapshot]
  exact getCount_applySchedule (successfulKeys ops) t c

/-- C3: For every IP address, the combined resolve-and-record operation
(`Locat::ip_to_iso_code`) returns exactly the Range Index lookup result,
regardless of whether the Aggregate Store increment succeeds; when the
increment fails (lookup found a country but the commit did not go through),
the failure is logged as a warning, the store is left unchanged, and no
error is propagated to the caller — the returned country is unaffected. -/
theorem ip_to_iso_code_returns_lookup
    (idx : RangeIndex) (s : DurableStore) (ip : IpAddr) :
    (∀ commitOk : Bool, (ipToIsoCode idx s ip commitOk).country = idx.lookup ip) ∧
      (∀ c : CountryCode, idx.lookup ip = some c →
        (ipToIsoCode idx s ip false).logs = [LogEvent.warnStoreError] ∧
          (ipToIsoCode idx s ip false).store = s) := by
  constructor
  · intro commitOk
    cases h : idx.lookup ip with
    | none => simp [ipToIsoCode, h]
    | some c =>
      cases commitOk with
      | true => simp [ipToIsoCode, h, DurableStore.increment]
      | false => simp [ipToIsoCode, h, DurableStore.increment]
  · intro c h
    simp [ipToIsoCode, h, DurableStore.increment]

/-- Witness for C3: with a one-range index covering 100–200 → "US", resolving
address 150 with a failing increment still returns "US", logs a warning, and
leaves the store unchanged. -/
theorem ip_to_iso_code_returns_lookup_witness :
    (ipToIsoCode ⟨[⟨100, 200, "US"⟩], []⟩ (openStore []) (.v4 150) false).logs =
        [LogEvent.warnStoreError] ∧
      (ipToIsoCode ⟨[⟨100, 200, "US"⟩], []⟩ (openStore []) (.v4 150) false).store =
        openStore [] :=
  (ip_to_iso_code_returns_lookup ⟨[⟨100, 200, "US"⟩], []⟩ (openStore [])
    (.v4 150)).2 "US" (by decide)

lemma findLast_mem (n : Nat) : ∀ rs : List GeoRange, ∀ r : GeoRange,
    findLast rs n = some r → r ∈ rs ∧ r.start_ip ≤ n := by
  intro rs
  induction rs with
  | nil => intro r h; simp [findLast] at h
  | cons q qs ih =>
    intro r h
    by_cases hlt : n < q.start_ip
    · simp [findLast, hlt] at h
    · simp only [findLast, hlt, ite_false, Option.some.injEq] at h
      cases hq : findLast qs n with
      | none =>
        rw [hq] at h
        simp only [Option.getD_none] at h
        exact ⟨by rw [← h]; exact List.mem_cons_self q qs, by rw [← h]; omega⟩
      | some r2 =>
        rw [hq] at h
        simp only [Option.getD_some] at h
        obtain ⟨hmem, hle⟩ := ih r2 hq
        exact ⟨by rw [← h]; exact List.mem_cons_of_mem q hmem, by rw [← h]; exact hle⟩

lemma lookupRanges_none_of_outside (rs : List GeoRange) (n : Nat)
    (h : ∀ r ∈ rs, ¬ r.covers n) : lookupRanges rs n = none := by
  unfold lookupRanges
  cases hf : findLast rs n with
  | none => rfl
  | some r =>
    obtain ⟨hmem, hle⟩ := findLast_mem n rs r hf
    have hnc := h r hmem
    have hend : ¬ n ≤ r.end_ip := fun hend => hnc ⟨hle, hend⟩
    simp [hend]

/-- C4: For every IP address strictly outside all loaded geographic ranges of
its address family, resolution returns `none` (no match) rather than an
error, and no counter in the Aggregate Store is incremented as a result of
that resolution: the store is returned unchanged. -/
theorem outside_ranges_resolves_none_no_increment
    (idx : RangeIndex) (s : DurableStore) (ip : IpAddr) (commitOk : Bool)
    (h : ∀ r ∈ idx.familyRanges ip, ¬ r.covers ip.num) :
    idx.lookup ip = none ∧ ipToIsoCode idx s ip commitOk = ⟨none, s, []⟩ := by
  have hnone : idx.lookup ip = none := by
    cases ip with
    | v4 n => exact lookupRanges_none_of_outside idx.v4 n h
    | v6 n => exact lookupRanges_none_of_outside idx.v6 n h
  exact ⟨hnone, by simp [ipToIsoCode, hnone]⟩

/-- Witness for C4: with a single IPv4 range 100–200 → "US", address 300 is
outside every range, resolves to no match, and leaves the store untouched. -/
theorem outside_ranges_resolves_none_no_increment_witness :
    (∀ r ∈ (RangeIndex.mk [⟨100, 200, "US"⟩] []).familyRanges (.v4 300),
        ¬ r.covers (IpAddr.v4 300).num) ∧
      (RangeIndex.mk [⟨100, 200, "US"⟩] []).lookup (.v4 300) = none ∧
        ipToIsoCode ⟨[⟨100, 200, "US"⟩], []⟩ (openStore [("US", 7)]) (.v4 300) true =
          ⟨none, openStore [("US", 7)], []⟩ :=
  ⟨by decide,
    outside_ranges_resolves_none_no_increment ⟨[⟨100, 200, "US"⟩], []⟩
      (openStore [("US", 7)]) (.v4 300) true (by decide)⟩

/-- C5: For any two executions of the `root_get` handler that differ only in
the outcome of country resolution (country found, no country found, or no
client address available) but agree on the cat-art outcome, the HTTP
response returned to the end user is the same — it is always exactly
`root_get_inner`'s response; the resolution outcome influences only logging
and span attributes, never the response body or status. -/
theorem resolution_never_changes_response
    (p1 p2 : String → Option IpAddr) (h1 h2 : HeaderMap)
    (idx1 idx2 : RangeIndex) (s1 s2 : DurableStore) (ok1 ok2 : Bool)
    (catArt : Except String String) :
    (root_get p1 h1 idx1 s1 ok1 catArt).response = root_get_inner catArt ∧
      (root_get p1 h1 idx1 s1 ok1 catArt).response =
        (root_get p2 h2 idx2 s2 ok2 catArt).response := by
  have key : ∀ (p : String → Option IpAddr) (hs : HeaderMap) (idx : RangeIndex)
      (s : DurableStore) (ok : Bool),
      (root_get p hs idx s ok catArt).response = root_get_inner catArt := by
    intro p hs idx s ok
    cases hga : get_client_addr p hs with
    | none => simp [root_get, hga]
    | some addr =>
      cases hc : (ipToIsoCode idx s addr ok).country with
      | none => simp [root_get, hga, hc]
      | some c => simp [root_get, hga, hc]
  exact ⟨key p1 h1 idx1 s1 ok1,
    by rw [key p1 h1 idx1 s1 ok1, key p2 h2 idx2 s2 ok2]⟩

lemma renderAnalytics_foldl (l : List (CountryCode × Nat)) :
    ∀ acc : String,
      l.foldl (fun resp p => resp ++ (p.1 ++ ": " ++ toString p.2 ++ "\n")) acc =
        acc ++ renderAnalyticsSpec l := by
  induction l with
  | nil => intro acc; simp [renderAnalyticsSpec]
  | cons p rest ih =>
    intro acc
    simp only [List.foldl]
    rw [ih]
    simp [renderAnalyticsSpec, String.append_assoc]

/-- C6: For every sequence of (country, count) pairs returned by the
analytics snapshot, the `analytics_get` handler renders the response body as
plain text with exactly one line per country, each line the country followed
by ": " and the count, in the order the pairs were returned: the handler's
fold-built string equals the spec's one-line-per-pair rendering. -/
theorem analytics_get_renders_one_line_per_country
    (analytics : List (CountryCode × Nat)) :
    renderAnalytics analytics = renderAnalyticsSpec analytics ∧
      analytics_get (.ok analytics) =
        some (.ok "text/plain; charset=utf-8" (renderAnalyticsSpec analytics)) := by
  have h : renderAnalytics analytics = renderAnalyticsSpec analytics := by
    have := renderAnalytics_foldl analytics ""
    simpa [renderAnalytics] using this
  exact ⟨h, by simp [analytics_get, h]⟩

/-- C9: `get_client_addr` returns some address iff the request carries a
"fly-client-ip" header whose value is a valid string that parses as an IP
address; and when it returns `none`, `root_get` performs no country
resolution and no counter increment (the store is untouched, no resolution
log line is emitted, the only span attribute is the user agent) and still
produces its normal response. -/
theorem get_client_addr_spec
    (parseIp : String → Option IpAddr) (headers : HeaderMap) :
    (∀ a : IpAddr, get_client_addr parseIp headers = some a ↔
      ∃ v : HeaderValue, ∃ s : String,
        headerGet headers "fly-client-ip" = some v ∧ v.asStr = some s ∧
          parseIp s = some a) ∧
    (get_client_addr parseIp headers = none →
      ∀ (idx : RangeIndex) (st : DurableStore) (ok : Bool)
        (catArt : Except String String),
        root_get parseIp headers idx st ok catArt =
          ⟨root_get_inner catArt, st, [],
            [("user_agent",
              ((headerGet headers "user-agent").bind HeaderValue.asStr).getD "")]⟩) := by
  constructor
  · intro a
    cases hv : headerGet headers "fly-client-ip" with
    | none => simp [get_client_addr, hv]
    | some v =>
      cases hs : v.asStr with
      | none => simp [get_client_addr, hv, hs]
      | some s => simp [get_client_addr, hv, hs]
  · intro hnone idx st ok catArt
    simp [root_get, hnone]

/-- Witness for C9: with a parser that accepts nothing and an empty header
map, `get_client_addr` is `none` and `root_get` leaves the store untouched,
emits no log, and answers with the cat art. -/
theorem get_client_addr_spec_witness :
    root_get (fun _ => none) [] ⟨[], []⟩ (openStore []) true (.ok "art") =
      ⟨root_get_inner (.ok "art"), openStore [], [], [("user_agent", "")]⟩ :=
  (get_client_addr_spec (fun _ => none) []).2 rfl ⟨[], []⟩ (openStore [])
    true (.ok "art")

/-- C10: If the analytics snapshot operation returns an error, the
`analytics_get` handler panics (the `unwrap`, modelled as `none`) instead of
returning an error response: the error branch of the snapshot call is not
handled. -/
theorem analytics_get_panics_on_snapshot_error (e : StoreError) :
    analytics_get (.error e) = none := rfl

lemma runMain_false_panics (env : Env) (p : String → Bool) :
    runMain env p false = .panicked [] ∨
      ∃ cp ap, runMain env p false = .panicked [MainEvent.locatNew cp ap] := by
  obtain ⟨hk, rl, cdb, adb⟩ := env
  cases hk with
  | none => left; rfl
  | some k =>
    by_cases hrl : p (rl.getD "info")
    · cases cdb with
      | none => left; simp [runMain, hrl]
      | some cp =>
        cases adb with
        | none => left; simp [runMain, hrl]
        | some ap => right; exact ⟨cp, ap, by simp [runMain, hrl]⟩
    · left; simp [runMain, hrl]

/-- C7: If construction of the Geo-Analytics Engine fails at startup
(`Locat::new` cannot load the dataset or open the store, `locatNewOk =
false`), the process panics before binding its listening port: the outcome
is never `serving`, no bind event and no serve event occur; and conversely
any run that reaches `serving` had a successfully constructed Engine. -/
theorem engine_failure_aborts_before_bind
    (env : Env) (p : String → Bool) :
    ((∀ es, runMain env p false ≠ .serving es) ∧
      (∀ a, MainEvent.bindPort a ∉ (runMain env p false).events) ∧
      MainEvent.serve ∉ (runMain env p false).events) ∧
    ∀ (ok : Bool) (es : List MainEvent),
      runMain env p ok = .serving es → ok = true := by
  constructor
  · rcases runMain_false_panics env p with hp | ⟨cp, ap, hp⟩ <;> rw [hp] <;>
      exact ⟨fun es h => by simp at h, fun a => by simp [MainOutcome.events],
        by simp [MainOutcome.events]⟩
  · intro ok es h
    cases ok with
    | true => rfl
    | false =>
      rcases runMain_false_panics env p with hp | ⟨cp, ap, hp⟩ <;>
        rw [hp] at h <;> exact absurd h (by simp)

/-- Witness for C7: with every variable set and a parsing filter, a
successful Engine construction reaches `serving`, and the theorem's converse
applies to it. -/
theorem engine_failure_aborts_before_bind_witness :
    (runMain ⟨some "k", none, some "c", some "a"⟩ (fun _ => true) true =
        MainOutcome.serving [.locatNew "c" "a", .bindPort "0.0.0.0:8080", .serve]) ∧
      (true : Bool) = true :=
  ⟨rfl, (engine_failure_aborts_before_bind ⟨some "k", none, some "c", some "a"⟩
    (fun _ => true)).2 true
      [.locatNew "c" "a", .bindPort "0.0.0.0:8080", .serve] rfl⟩

/-- C8: If either the geographic dataset path or the analytics store path
environment variable (GEOLITE2_COUNTRY_DB, ANALYTICS_DB) is absent at
startup, `main` panics with no startup event at all: in particular before
constructing the Engine (no `locatNew` event), before binding, and before
serving any request. -/
theorem missing_db_env_panics_before_engine
    (env : Env) (p : String → Bool) (ok : Bool)
    (h : env.geolite2CountryDb = none ∨ env.analyticsDb = none) :
    runMain env p ok = .panicked [] ∧
      (∀ cp ap, MainEvent.locatNew cp ap ∉ (runMain env p ok).events) ∧
      (∀ a, MainEvent.bindPort a ∉ (runMain env p ok).events) ∧
      MainEvent.serve ∉ (runMain env p ok).events := by
  have hp : runMain env p ok = .panicked [] := by
    obtain ⟨hk, rl, cdb, adb⟩ := env
    cases hk with
    | none => rfl
    | some k =>
      by_cases hrl : p (rl.getD "info")
      · rcases h with h | h
        · simp only at h
          subst h
          simp [runMain, hrl]
        · simp only at h
          subst h
          cases cdb with
          | none => simp [runMain, hrl]
          | some cp => simp [runMain, hrl]
      · simp [runMain, hrl]
  refine ⟨hp, ?_, ?_, ?_⟩ <;> rw [hp] <;> simp [MainOutcome.events]

/-- Witness for C8: with GEOLITE2_COUNTRY_DB absent (and everything else
set), `main` panics with no startup event. -/
theorem missing_db_env_panics_before_engine_witness :
    runMain ⟨some "k", none, none, some "a"⟩ (fun _ => true) true =
      MainOutcome.panicked [] :=
  (missing_db_env_panics_before_engine ⟨some "k", none, none, some "a"⟩
    (fun _ => true) true (Or.inl rfl)).1

end Catscii
